import Mathlib

/-!
Shallow embedding of the SIF (Sparse Image Format) C library, `sif-io.c`,
together with theorems that check the specification's claims against the
code.  Buffers are modelled as `List Nat` of byte values, C `long` /
`int` quantities as `Int`, and the per-handle mutable state as explicit
record-passing.  Definitions are translated from the source; each doc
comment names the C function a definition embeds.
-/

/-! ## Constants from sif-io.h -/

def SIF_ERROR_NONE : Int := 0
def SIF_ERROR_MEM : Int := 1
def SIF_ERROR_NULL_HDR : Int := 3
def SIF_ERROR_INVALID_TN : Int := 5
def SIF_ERROR_READ : Int := 6
def SIF_ERROR_INVALID_FILE_MODE : Int := 10
def SIF_ERROR_INCOMPATIBLE_VERSION : Int := 11
def SIF_ERROR_META_DATA_KEY : Int := 12
def SIF_ERROR_META_DATA_VALUE : Int := 13
def SIF_ERROR_INVALID_BAND : Int := 15
def SIF_ERROR_INVALID_COORD : Int := 16
def SIF_ERROR_INVALID_REGION_SIZE : Int := 18
def SIF_ERROR_INVALID_BUFFER : Int := 19

def SIF_VERSION : Int := 2

def SIF_SIMPLE_LITTLE_ENDIAN : Int := 0
def SIF_SIMPLE_BIG_ENDIAN : Int := 1

/-! ## Generic list helpers (memcpy into a buffer, etc.) -/

/-- Byte-range overwrite: `memcpy(dst + pos, src, src.length)` restricted to
the extent of `dst` (the model keeps the destination length fixed). -/
def list_overwrite (dst : List Nat) (pos : Nat) (src : List Nat) : List Nat :=
  dst.take pos ++ src.take (dst.length - pos) ++ dst.drop (pos + src.length)

/-! ## Bit macros (`SIF_GET_BIT`, `SIF_SET_BIT`, `SIF_CLEAR_BIT`)

The bit layout is MSB first: bit `i` lives in byte `i / 8` under mask
`0x80 >> (i mod 8)`, i.e. `1 <<< (7 - i mod 8)`. -/

/-- `SIF_GET_BIT(uca, i)`: `(uca[i/8] >> (7 - i%8)) & 0x1`. -/
def SIF_GET_BIT (uca : List Nat) (i : Nat) : Nat :=
  (uca.getD (i / 8) 0 >>> (7 - i % 8)) &&& 1

/-- `SIF_SET_BIT(uca, i)`: `uca[i/8] |= 1 << (7 - i%8)`. -/
def SIF_SET_BIT (uca : List Nat) (i : Nat) : List Nat :=
  uca.set (i / 8) (uca.getD (i / 8) 0 ||| (1 <<< (7 - i % 8)))

/-- `SIF_CLEAR_BIT(uca, i)`: `uca[i/8] &= ~(1 << (7 - i%8))` on a byte. -/
def SIF_CLEAR_BIT (uca : List Nat) (i : Nat) : List Nat :=
  uca.set (i / 8) (uca.getD (i / 8) 0 &&& (255 ^^^ (1 <<< (7 - i % 8))))

/-- `CEIL_DIV(x, y)` from sif-io.c: exact-quotient test, else quotient + 1
(the C macro performs the exactness test in double precision, which is
exact for the dimension ranges involved). -/
def CEIL_DIV (x y : Int) : Int :=
  if x % y == 0 then x / y else x / y + 1

/-! ## Endian adapter (`_sif_swap_bytes`, `_sif_buffer_host_to_code`) -/

/-- Inner loop of `_sif_swap_bytes`:
`for (j = i, k = m; k < n_bytes; j += elem_size, k += elem_size)`
with body `tmp = buffer[k]; buffer[k] = buffer[i]; buffer[i] = tmp;`.
The index `j` is incremented but never read in the source, so it is not
carried here.  `fuel` bounds the iteration count (`n_bytes + 1` suffices
for `elem_size ≥ 1`). -/
def sif_swap_bytes_inner (i esz n : Nat) : Nat → Nat → List Nat → List Nat
  | 0, _, buf => buf
  | fuel + 1, k, buf =>
    if k < n then
      let tmp := buf.getD k 0
      let buf1 := buf.set k (buf.getD i 0)
      let buf2 := buf1.set i tmp
      sif_swap_bytes_inner i esz n fuel (k + esz) buf2
    else buf

/-- `_sif_swap_bytes(buffer, n_bytes, elem_size)`: outer loop over
`i < elem_size / 2` with `m = elem_size/2 - i - 1`. -/
def sif_swap_bytes (buffer : List Nat) (n_bytes elem_size : Nat) : List Nat :=
  let esz_h := elem_size / 2
  (List.range esz_h).foldl
    (fun buf i =>
      let m := esz_h - i - 1
      sif_swap_bytes_inner i elem_size n_bytes (n_bytes + 1) m buf)
    buffer

/-- `_sif_buffer_host_to_big`: swap on a little-endian host, no-op on a
big-endian host (the compile-time `__BYTE_ORDER` test is modelled by the
`hostLittle` parameter). -/
def sif_buffer_host_to_big (hostLittle : Bool) (buffer : List Nat)
    (n_bytes elem_size : Nat) : List Nat :=
  if hostLittle then sif_swap_bytes buffer n_bytes elem_size else buffer

/-- `_sif_buffer_host_to_little`: no-op on a little-endian host. -/
def sif_buffer_host_to_little (hostLittle : Bool) (buffer : List Nat)
    (n_bytes elem_size : Nat) : List Nat :=
  if hostLittle then buffer else sif_swap_bytes buffer n_bytes elem_size

/-- `_sif_buffer_host_to_code`: two sequential tests against the simple
endian code, as in the source. -/
def sif_buffer_host_to_code (hostLittle : Bool) (buffer : List Nat)
    (n_bytes elem_size : Nat) (simple_endian_code : Int) : List Nat :=
  let b1 :=
    if simple_endian_code == SIF_SIMPLE_BIG_ENDIAN then
      sif_buffer_host_to_big hostLittle buffer n_bytes elem_size
    else buffer
  if simple_endian_code == SIF_SIMPLE_LITTLE_ENDIAN then
    sif_buffer_host_to_little hostLittle b1 n_bytes elem_size
  else b1

/-- Helper for the element-wise byte reversal the specification describes
(`elem_size` bytes of every element reversed); used only to compare the
source's swap against the specified one. -/
def elementwise_byte_reverse_go (e : Nat) : Nat → List Nat → List Nat
  | 0, l => l
  | fuel + 1, l =>
    if l.isEmpty then [] else (l.take e).reverse ++ elementwise_byte_reverse_go e fuel (l.drop e)

/-- Element-wise byte reversal of a buffer of elements of size `e`
(the behaviour the specification ascribes to the endian adapter). -/
def elementwise_byte_reverse (e : Nat) (l : List Nat) : List Nat :=
  elementwise_byte_reverse_go e l.length l

/-! ## Metadata store
(`_sif_get_meta_data_pair`, `_sif_set_meta_data_len`, `sif_set_meta_data`,
`sif_set_meta_data_binary`, `sif_get_meta_data`, `sif_get_meta_data_binary`,
`_sif_null_terminator_check`, `_sif_write_meta_data`).

A record's key is stored as its NUL-free byte string; the on-disk
`key_length` is `key.length + 1` (the source stores `strlen(key) + 1`
bytes including the terminator).  The hash table with collision chains is
modelled as a flat record list: `strcmp`-lookup returns the first match,
exactly as the chain walk with `break` does (the dead trailing assignment
`result = r` in `_sif_get_meta_data_pair` leaves that result unchanged). -/

structure sif_meta_data where
  key : List Nat
  value : List Nat
  deriving DecidableEq, Repr

/-- The in-memory metadata dictionary. -/
def MetaStore : Type := List sif_meta_data

instance : DecidableEq MetaStore := by
  unfold MetaStore
  infer_instance

/-- `_sif_get_meta_data_pair`: first record whose key matches. -/
def sif_get_meta_data_pair (store : MetaStore) (key : List Nat) : Option sif_meta_data :=
  List.find? (fun md => md.key == key) store

/-- Replace the value of the first record matching `key` (the source's
`realloc` + `memcpy` on the located pair). -/
def sif_meta_replace_first : MetaStore → List Nat → List Nat → MetaStore
  | [], _, _ => []
  | md :: rest, key, value =>
    if md.key == key then { md with value := value } :: rest
    else md :: sif_meta_replace_first rest key value

/-- `_sif_set_meta_data_len(file, key, value, value_len)`: if the key is
absent, a new record is inserted (at the head of its chain); if the key is
present, the stored value is reallocated and copied ONLY when
`value_len != i->value_length` — when the lengths are equal the source
copies nothing and the store is returned unchanged. -/
def sif_set_meta_data_len (store : MetaStore) (key : List Nat) (value : List Nat) : MetaStore :=
  match sif_get_meta_data_pair store key with
  | none => { key := key, value := value } :: store
  | some i =>
    if value.length ≠ i.value.length then
      sif_meta_replace_first store key value
    else
      store

/-- `sif_set_meta_data(file, key, value)`: stores `strlen(value) + 1`
bytes, i.e. the string's bytes plus the NUL terminator. -/
def sif_set_meta_data (store : MetaStore) (key : List Nat) (value : List Nat) : MetaStore :=
  sif_set_meta_data_len store key (value ++ [0])

/-- `sif_set_meta_data_binary(file, key, buffer, n_bytes)`. -/
def sif_set_meta_data_binary (store : MetaStore) (key : List Nat) (buffer : List Nat) : MetaStore :=
  sif_set_meta_data_len store key buffer

/-- Loop of `_sif_null_terminator_check(v, n)`: `n` iterations, each of
which tests `v[0] == 0x00` — the source reads `v[0]`, not `v[i]`. -/
def sif_null_terminator_check_loop (v : List Nat) : Nat → Bool
  | 0 => false
  | n + 1 => if v.getD 0 1 == 0 then true else sif_null_terminator_check_loop v n

/-- `_sif_null_terminator_check(v, n)`. -/
def sif_null_terminator_check (v : List Nat) (n : Nat) : Bool :=
  sif_null_terminator_check_loop v n

/-- `sif_get_meta_data(file, key)`: returns the stored value (the source
returns the pointer even when it fails the terminator check) together with
the error code the call leaves on a previously clean handle. -/
def sif_get_meta_data (store : MetaStore) (key : List Nat) : Int × Option (List Nat) :=
  match sif_get_meta_data_pair store key with
  | none => (SIF_ERROR_META_DATA_KEY, none)
  | some q =>
    if sif_null_terminator_check q.value q.value.length then
      (SIF_ERROR_NONE, some q.value)
    else
      (SIF_ERROR_META_DATA_VALUE, some q.value)

/-- `sif_get_meta_data_binary(file, key, n_bytes)`: error code, value
bytes and reported length. -/
def sif_get_meta_data_binary (store : MetaStore) (key : List Nat) :
    Int × Option (List Nat × Nat) :=
  match sif_get_meta_data_pair store key with
  | none => (SIF_ERROR_META_DATA_KEY, none)
  | some q => (SIF_ERROR_NONE, some (q.value, q.value.length))

/-- `_sif_get_last_used_block_index`: scan `blocks_to_tiles` keeping the
largest index holding a tile, `-1` if none. -/
def sif_get_last_used_block_index (b2t : List Int) : Int :=
  (List.range b2t.length).foldl
    (fun acc i => if b2t.getD i (-1) ≠ -1 then (i : Int) else acc) (-1)

/-- `_sif_get_block_location`: `base_location + tile_bytes * block_num`. -/
def sif_get_block_location (base tile_bytes block_num : Int) : Int :=
  base + tile_bytes * block_num

/-- On-disk size of one metadata record as written by
`_sif_write_meta_data`: 4-byte key length, `key_length` key bytes
(including the NUL), 4-byte value length, `value_length` value bytes. -/
def sif_meta_record_bytes (md : sif_meta_data) : Int :=
  4 + ((md.key.length : Int) + 1) + 4 + (md.value.length : Int)

/-- Truncation position used by `_sif_write_meta_data`: the running
`eofpos` starts at the metadata region's start, each record advances it by
the record's size, and the source truncates at `eofpos + 1`. -/
def sif_write_meta_data_trunc_pos (base tile_bytes : Int) (b2t : List Int)
    (store : MetaStore) : Int :=
  let loc := sif_get_block_location base tile_bytes (sif_get_last_used_block_index b2t + 1)
  let eofpos := store.foldl (fun e md => e + sif_meta_record_bytes md) loc
  eofpos + 1

/-- Start of the metadata region (one block past the last used block). -/
def sif_meta_data_start (base tile_bytes : Int) (b2t : List Int) : Int :=
  sif_get_block_location base tile_bytes (sif_get_last_used_block_index b2t + 1)

/-- Total byte size of the metadata region. -/
def sif_meta_data_total_bytes (store : MetaStore) : Int :=
  (store.map sif_meta_record_bytes).sum

/-! ## Tile-state model
(`sif_header`, `sif_tile`, `sif_file` records, the uniformity engine,
tile slice I/O, raster window I/O and `sif_create`).

The on-disk data region is modelled per block and band
(`disk_blocks : block → band → slice bytes`); every seek the slice I/O
performs lands on a slice boundary, so this is byte-faithful.  The
`disk_tile_headers` list mirrors the tile-header table as written through
by `_sif_write_tile_header` / `_sif_write_tile_headers`.  NULL-buffer
argument checks of the C API have no counterpart (lists cannot be null),
and `malloc` failures and I/O-primitive failures are not modelled (the
pure state transitions never fail). -/

structure sif_header where
  version : Int
  width : Int
  height : Int
  bands : Int
  tile_width : Int
  tile_height : Int
  data_unit_size : Int
  n_tiles_across : Int
  n_tiles : Int
  n_uniform_flags : Int
  tile_bytes : Int
  user_data_type : Int
  intrinsic_write : Int
  consolidate : Int
  defragment : Int
  deriving DecidableEq, Repr

/-- Zeroed header, as `_sif_alloc_header` produces (`bzero`). -/
def sif_header_zero : sif_header :=
  { version := 0, width := 0, height := 0, bands := 0, tile_width := 0,
    tile_height := 0, data_unit_size := 0, n_tiles_across := 0, n_tiles := 0,
    n_uniform_flags := 0, tile_bytes := 0, user_data_type := 0,
    intrinsic_write := 0, consolidate := 0, defragment := 0 }

structure sif_tile where
  uniform_flags : List Nat
  uniform_pixel_values : List Nat
  block_num : Int
  deriving DecidableEq, Repr

instance : Inhabited sif_tile :=
  ⟨{ uniform_flags := [], uniform_pixel_values := [], block_num := -1 }⟩

structure sif_file where
  header : Option sif_header
  read_only : Bool
  error : Int
  units_per_slice : Int
  tiles : List sif_tile
  blocks_to_tiles : List Int
  dirty_tiles : List Int
  disk_blocks : List (List (List Nat))
  disk_tile_headers : List sif_tile
  deriving DecidableEq, Repr

instance : Inhabited sif_file :=
  ⟨{ header := none, read_only := true, error := 0, units_per_slice := 0,
     tiles := [], blocks_to_tiles := [], dirty_tiles := [], disk_blocks := [],
     disk_tile_headers := [] }⟩

/-- Loop of `_sif_completely_uniform_shallow`:
`for (j = 0; j < n_uniform_flags && retval == 0xFF; j++) retval &= flags[j]`.
The first argument of the recursion is the remaining iteration count. -/
def sif_completely_uniform_loop (flags : List Nat) : Nat → Nat → Nat → Nat
  | 0, _, retval => retval
  | fuel + 1, j, retval =>
    if retval == 0xFF then
      sif_completely_uniform_loop flags fuel (j + 1) (retval &&& flags.getD j 0)
    else retval

/-- `_sif_completely_uniform_shallow(file, i)`: first ORs
`0xFF >> (8 - bands % 8)` into the trailing byte of `uniform_flags`
(mutating the tile record), then tests whether every flag byte is `0xFF`.
Returns the mutated flag bytes together with the test's outcome. -/
def sif_completely_uniform_shallow (hd : sif_header) (flags : List Nat) :
    List Nat × Bool :=
  let nflags := hd.n_uniform_flags.toNat
  let lastIdx := nflags - 1
  let mask := 0xFF >>> (8 - (hd.bands % 8).toNat)
  let flags1 := flags.set lastIdx (flags.getD lastIdx 0 ||| mask)
  let retval := sif_completely_uniform_loop flags1 nflags 0 0xFF
  (flags1, retval == 0xFF)

/-- Comparison of data unit `j` of a slice buffer against unit 0
(`memcmp(data, datav + data_unit_size * j, data_unit_size) == 0`; the
element-size-1 and element-size-2 specializations of `_sif_is_uniform`
compute the same byte comparison). -/
def sif_is_uniform_unit_eq (dus : Nat) (data : List Nat) (j : Nat) : Bool :=
  data.take dus == (data.drop (dus * j)).take dus

/-- `_sif_is_uniform(file, data, extentX, extentY)`: scans
`num_units = extentY * tile_width` units in rows of `tile_width`,
examining only the first `extentX` units of each row. -/
def sif_is_uniform (hd : sif_header) (data : List Nat) (extentX extentY : Int) : Bool :=
  let dus := hd.data_unit_size.toNat
  let tw := hd.tile_width.toNat
  let num_units := extentY.toNat * tw
  (List.range ((num_units + tw - 1) / tw)).all fun r =>
    (List.range extentX.toNat).all fun k =>
      sif_is_uniform_unit_eq dus data (r * tw + k)

/-- `sif_get_tile_slice(file, buffer, tx, ty, band)`: validation, `bzero`
of the output buffer, then either replication of the stored uniform pixel
value (the element-size-1 path uses `memset`, the general path a
per-unit `memcpy`) or a read of the slice from the tile's block. -/
def sif_get_tile_slice (f : sif_file) (tx ty band : Int) : sif_file × List Nat :=
  match f.header with
  | none => ({ f with error := SIF_ERROR_NULL_HDR }, [])
  | some hd =>
    if SIF_VERSION < hd.version then
      ({ f with error := SIF_ERROR_INCOMPATIBLE_VERSION }, [])
    else if tx < 0 ∨ ty < 0 ∨ hd.n_tiles_across ≤ tx then
      ({ f with error := SIF_ERROR_INVALID_TN }, [])
    else if band < 0 ∨ hd.bands ≤ band then
      ({ f with error := SIF_ERROR_INVALID_BAND }, [])
    else
      let tile_num := (hd.n_tiles_across * ty + tx).toNat
      let tile := f.tiles.getD tile_num default
      let dus := hd.data_unit_size.toNat
      let ups := f.units_per_slice.toNat
      let zeroed := List.replicate (dus * ups) 0
      if SIF_GET_BIT tile.uniform_flags band.toNat ≠ 0 then
        let upv := (tile.uniform_pixel_values.drop (dus * band.toNat)).take dus
        if 1 < dus then
          (f, list_overwrite zeroed 0 (List.replicate ups upv).flatten)
        else
          (f, list_overwrite zeroed 0 (List.replicate ups (upv.getD 0 0)))
      else
        let slice := (f.disk_blocks.getD tile.block_num.toNat []).getD band.toNat []
        (f, list_overwrite zeroed 0 slice)

/-- First-fit search of `sif_set_tile_slice`: `free_b` starts at 0 and the
scan breaks at the first block index mapped to no tile, so a (never
reachable) full block table yields block 0. -/
def sif_first_free_block (b2t : List Int) (n : Nat) : Nat :=
  match List.find? (fun i => b2t.getD i 0 == -1) (List.range n) with
  | some i => i
  | none => 0

/-- `sif_set_tile_slice(file, buffer, tx, ty, band)`.  With
`intrinsic_write` set and a buffer uniform over the tile's in-image
extent, the value is stored in the tile header (freeing the block if the
tile became fully uniform); otherwise the tile's block is materialized if
absent (writing the buffer to all `bands` slices), the slice is written,
the band's uniform bit cleared, and the tile marked dirty when
`intrinsic_write` is unset. -/
def sif_set_tile_slice (f : sif_file) (buffer : List Nat) (tx ty band : Int) : sif_file :=
  match f.header with
  | none => { f with error := SIF_ERROR_NULL_HDR }
  | some hd =>
    if SIF_VERSION < hd.version then
      { f with error := SIF_ERROR_INCOMPATIBLE_VERSION }
    else if tx < 0 ∨ ty < 0 ∨ hd.n_tiles_across ≤ tx then
      { f with error := SIF_ERROR_INVALID_TN }
    else if band < 0 ∨ hd.bands ≤ band then
      { f with error := SIF_ERROR_INVALID_BAND }
    else if f.read_only then
      { f with error := SIF_ERROR_INVALID_FILE_MODE }
    else
      let extentX := min hd.tile_width (hd.width - tx * hd.tile_width)
      let extentY := min hd.tile_height (hd.height - ty * hd.tile_height)
      let tile_num := (hd.n_tiles_across * ty + tx).toNat
      let tile := f.tiles.getD tile_num default
      let dus := hd.data_unit_size.toNat
      let ups := f.units_per_slice.toNat
      if hd.intrinsic_write ≠ 0 ∧ sif_is_uniform hd buffer extentX extentY then
        let upv1 := list_overwrite tile.uniform_pixel_values (dus * band.toNat) (buffer.take dus)
        let flags1 := SIF_SET_BIT tile.uniform_flags band.toNat
        let cu := sif_completely_uniform_shallow hd flags1
        let tile1 : sif_tile :=
          { uniform_flags := cu.1, uniform_pixel_values := upv1, block_num := tile.block_num }
        if cu.2 ∧ tile1.block_num ≠ -1 then
          let tile2 := { tile1 with block_num := -1 }
          { f with tiles := f.tiles.set tile_num tile2,
                   blocks_to_tiles := f.blocks_to_tiles.set tile1.block_num.toNat (-1),
                   disk_tile_headers := f.disk_tile_headers.set tile_num tile2 }
        else
          { f with tiles := f.tiles.set tile_num tile1,
                   disk_tile_headers := f.disk_tile_headers.set tile_num tile1 }
      else
        let materialized :=
          if tile.block_num = -1 then
            let free_b := sif_first_free_block f.blocks_to_tiles hd.n_tiles.toNat
            let tileA := { tile with block_num := (free_b : Int) }
            let f1 :=
              { f with
                blocks_to_tiles := f.blocks_to_tiles.set free_b (tile_num : Int),
                disk_blocks :=
                  f.disk_blocks.set free_b
                    (List.replicate hd.bands.toNat (buffer.take (dus * ups))) }
            (f1, tileA)
          else (f, tile)
        let f1 := materialized.1
        let tileA := materialized.2
        let f2 :=
          if hd.intrinsic_write == 0 then
            { f1 with dirty_tiles := f1.dirty_tiles.set tile_num 1 }
          else f1
        let blk := tileA.block_num.toNat
        let blockContent := (f2.disk_blocks.getD blk []).set band.toNat (buffer.take (dus * ups))
        let f3 := { f2 with disk_blocks := f2.disk_blocks.set blk blockContent }
        let tileB := { tileA with uniform_flags := SIF_CLEAR_BIT tileA.uniform_flags band.toNat }
        { f3 with tiles := f3.tiles.set tile_num tileB,
                  disk_tile_headers := f3.disk_tile_headers.set tile_num tileB }

/-- `sif_fill_tile_slice(file, tx, ty, band, value)`: store the uniform
value for the band, set the band's bit, and free the tile's block when
`_sif_completely_uniform_shallow` now reports complete uniformity. -/
def sif_fill_tile_slice (f : sif_file) (tx ty band : Int) (value : List Nat) : sif_file :=
  match f.header with
  | none => { f with error := SIF_ERROR_NULL_HDR }
  | some hd =>
    if SIF_VERSION < hd.version then
      { f with error := SIF_ERROR_INCOMPATIBLE_VERSION }
    else if tx < 0 ∨ ty < 0 ∨ hd.n_tiles_across ≤ tx then
      { f with error := SIF_ERROR_INVALID_TN }
    else if band < 0 ∨ hd.bands ≤ band then
      { f with error := SIF_ERROR_INVALID_BAND }
    else if f.read_only then
      { f with error := SIF_ERROR_INVALID_FILE_MODE }
    else
      let tile_num := (hd.n_tiles_across * ty + tx).toNat
      let tile := f.tiles.getD tile_num default
      let dus := hd.data_unit_size.toNat
      let upv1 := list_overwrite tile.uniform_pixel_values (dus * band.toNat) (value.take dus)
      let flags1 := SIF_SET_BIT tile.uniform_flags band.toNat
      let cu := sif_completely_uniform_shallow hd flags1
      let tile1 : sif_tile :=
        { uniform_flags := cu.1, uniform_pixel_values := upv1, block_num := tile.block_num }
      if cu.2 ∧ tile1.block_num ≠ -1 then
        let tile2 := { tile1 with block_num := -1 }
        { f with tiles := f.tiles.set tile_num tile2,
                 blocks_to_tiles := f.blocks_to_tiles.set tile1.block_num.toNat (-1),
                 disk_tile_headers := f.disk_tile_headers.set tile_num tile2 }
      else
        { f with tiles := f.tiles.set tile_num tile1,
                 disk_tile_headers := f.disk_tile_headers.set tile_num tile1 }

/-- Per-tile body of `sif_set_raster`: fetch the slice, copy the
intersecting window rows from the client buffer into the slice buffer —
the source addresses the slice buffer with
`buffer + (cyt * trs) + (sxt * dus)` where `trs = n_tiles_across` — and
write the slice back. -/
def sif_set_raster_tile (data : List Nat) (x y w h : Int) (band : Int)
    (hd : sif_header) (f : sif_file) (tx ty : Int) : sif_file :=
  let tw := hd.tile_width
  let th := hd.tile_height
  let trs := hd.n_tiles_across
  let dus := hd.data_unit_size
  let wdus := dus * w
  let got := sif_get_tile_slice f tx ty band
  let sxt := max 0 (x - tx * tw)
  let syt := max 0 (y - ty * th)
  let ext := min (tw - 1) (x + w - 1 - tx * tw)
  let eyt := min (th - 1) (y + h - 1 - ty * th)
  let sxd := tx * tw + sxt - x
  let syd := ty * th + syt - y
  let rows := (eyt - syt + 1).toNat
  let buffer :=
    (List.range rows).foldl
      (fun buf r =>
        let cyt := syt + (r : Int)
        let cyd := syd + (r : Int)
        list_overwrite buf (cyt * trs + sxt * dus).toNat
          ((data.drop (cyd * wdus + sxd * dus).toNat).take ((ext - sxt + 1) * dus).toNat))
      got.2
  sif_set_tile_slice got.1 buffer tx ty band

/-- `sif_set_raster(file, data, x, y, w, h, band)`: validation, tile-index
range computation, then the per-tile copy loop; after each
`sif_set_tile_slice` the source returns early if the handle's error field
is non-zero. -/
def sif_set_raster (f : sif_file) (data : List Nat) (x y w h band : Int) : sif_file :=
  match f.header with
  | none => { f with error := SIF_ERROR_NULL_HDR }
  | some hd =>
    if SIF_VERSION < hd.version then
      { f with error := SIF_ERROR_INCOMPATIBLE_VERSION }
    else if f.read_only then f
    else if x < 0 ∨ y < 0 then
      { f with error := SIF_ERROR_INVALID_COORD }
    else if w < 1 ∨ h < 1 ∨ hd.width < x + w ∨ hd.height < y + h then
      { f with error := SIF_ERROR_INVALID_REGION_SIZE }
    else if band < 0 ∨ hd.bands ≤ band then
      { f with error := SIF_ERROR_INVALID_BAND }
    else
      let tw := hd.tile_width
      let th := hd.tile_height
      let tnx1 := x / tw
      let tny1 := y / th
      let tnx2 := (x + w - 1) / tw
      let tny2 := (y + h - 1) / th
      let idxs :=
        ((List.range (tny2 - tny1 + 1).toNat).map fun dy =>
          (List.range (tnx2 - tnx1 + 1).toNat).map fun dx =>
            (tny1 + (dy : Int), tnx1 + (dx : Int))).flatten
      (idxs.foldl
        (fun (acc : sif_file × Bool) tyx =>
          if acc.2 then acc
          else
            let f2 := sif_set_raster_tile data x y w h band hd acc.1 tyx.2 tyx.1
            (f2, f2.error ≠ 0))
        (f, false)).1

/-- Per-tile body of `sif_get_raster`: fetch the slice and copy the
intersecting window rows from the slice buffer — addressed with the same
`buffer + (cyt * trs) + (sxt * dus)`, `trs = n_tiles_across` — into the
client buffer. -/
def sif_get_raster_tile (x y w : Int) (h : Int) (band : Int) (hd : sif_header)
    (st : sif_file × List Nat) (tx ty : Int) : sif_file × List Nat :=
  let tw := hd.tile_width
  let th := hd.tile_height
  let trs := hd.n_tiles_across
  let dus := hd.data_unit_size
  let wdus := dus * w
  let sxt := max 0 (x - tx * tw)
  let syt := max 0 (y - ty * th)
  let ext := min (tw - 1) (x + w - 1 - tx * tw)
  let eyt := min (th - 1) (y + h - 1 - ty * th)
  let sxd := tx * tw + sxt - x
  let syd := ty * th + syt - y
  let got := sif_get_tile_slice st.1 tx ty band
  let rows := (eyt - syt + 1).toNat
  let out :=
    (List.range rows).foldl
      (fun dat r =>
        let cyt := syt + (r : Int)
        let cyd := syd + (r : Int)
        list_overwrite dat (cyd * wdus + sxd * dus).toNat
          ((got.2.drop (cyt * trs + sxt * dus).toNat).take ((ext - sxt + 1) * dus).toNat))
      st.2
  (got.1, out)

/-- `sif_get_raster(file, data, x, y, w, h, band)`: the symmetric read;
`data` carries the client buffer's (initial) contents. -/
def sif_get_raster (f : sif_file) (data : List Nat) (x y w h band : Int) :
    sif_file × List Nat :=
  match f.header with
  | none => ({ f with error := SIF_ERROR_NULL_HDR }, data)
  | some hd =>
    if SIF_VERSION < hd.version then
      ({ f with error := SIF_ERROR_INCOMPATIBLE_VERSION }, data)
    else if x < 0 ∨ y < 0 then
      ({ f with error := SIF_ERROR_INVALID_COORD }, data)
    else if w < 1 ∨ h < 1 ∨ hd.width < x + w ∨ hd.height < y + h then
      ({ f with error := SIF_ERROR_INVALID_REGION_SIZE }, data)
    else if band < 0 ∨ hd.bands ≤ band then
      ({ f with error := SIF_ERROR_INVALID_BAND }, data)
    else
      let tw := hd.tile_width
      let th := hd.tile_height
      let tnx1 := x / tw
      let tny1 := y / th
      let tnx2 := (x + w - 1) / tw
      let tny2 := (y + h - 1) / th
      let idxs :=
        ((List.range (tny2 - tny1 + 1).toNat).map fun dy =>
          (List.range (tnx2 - tnx1 + 1).toNat).map fun dx =>
            (tny1 + (dy : Int), tnx1 + (dx : Int))).flatten
      idxs.foldl
        (fun st tyx => sif_get_raster_tile x y w h band hd st tyx.2 tyx.1)
        (f, data)

/-- `sif_create(filename, width, height, bands, data_unit_size,
user_data_type, consolidate_on_close, defragment_on_close, tile_width,
tile_height, intrinsic_write)`: argument validation, then construction of
the header — the source assigns `hd->intrinsic_write = intrinsic_write`
and later unconditionally `hd->intrinsic_write = 1` — the all-uniform
tile-header table (`_sif_alloc_tile_headers` sets every flag byte to
`0xFF` and every uniform pixel value to 0), the all-free block map, and
the initial write-through of header and tile headers. -/
def sif_create (width height bands data_unit_size user_data_type : Int)
    (consolidate_on_close defragment_on_close : Int)
    (tile_width tile_height intrinsic_write : Int) : Option sif_file :=
  if bands < 1 ∨ width < 1 ∨ height < 1 ∨ tile_width < 1 ∨ tile_height < 1 ∨
      data_unit_size < 1 then
    none
  else
    let hd1 := { sif_header_zero with consolidate := consolidate_on_close }
    let hd2 := { hd1 with intrinsic_write := intrinsic_write }
    let hd3 := { hd2 with defragment := defragment_on_close }
    let hd4 := { hd3 with intrinsic_write := 1 }
    let s := CEIL_DIV bands 8
    let hd : sif_header :=
      { hd4 with
        width := width, height := height, bands := bands,
        tile_width := tile_width, tile_height := tile_height,
        version := SIF_VERSION,
        tile_bytes := tile_width * tile_height * bands * data_unit_size,
        data_unit_size := data_unit_size, user_data_type := user_data_type,
        n_tiles_across := CEIL_DIV width tile_width,
        n_tiles := CEIL_DIV width tile_width * CEIL_DIV height tile_height,
        n_uniform_flags := s }
    let tile0 : sif_tile :=
      { uniform_flags := List.replicate s.toNat 0xFF,
        uniform_pixel_values := List.replicate (bands * data_unit_size).toNat 0,
        block_num := -1 }
    let tiles := List.replicate hd.n_tiles.toNat tile0
    some
      { header := some hd, read_only := false, error := 0,
        units_per_slice := tile_width * tile_height,
        tiles := tiles,
        blocks_to_tiles := List.replicate hd.n_tiles.toNat (-1),
        dirty_tiles := List.replicate hd.n_tiles.toNat 0,
        disk_blocks := List.replicate hd.n_tiles.toNat [],
        disk_tile_headers := tiles }

/-! ## Defragmenter (`sif_defragment`, `_sif_swap_blocks`)

`sif_defragment` walks the tiles in index order with a write cursor
`bn1`; the byte-level `_sif_swap_blocks` moves data between the data
region's blocks exactly as the bookkeeping below moves the two inverse
maps, so the model tracks `tile_to_block` (each tile record's
`block_num`) and `blocks_to_tiles` as total functions on block/tile
indices.  I/O-primitive failures (which make the source return early)
are not modelled: the pure transitions never set the error field. -/

/-- Pointwise array update. -/
def defrag_upd (f : Nat → Int) (i : Nat) (v : Int) : Nat → Int :=
  fun j => if j = i then v else f j

/-- Loop body sequence of `sif_defragment` over the listed tile indices,
carrying the write cursor `bn1`. -/
def sif_defragment_go : List Nat → Nat → (Nat → Int) → (Nat → Int) →
    ((Nat → Int) × (Nat → Int))
  | [], _, tiles, b2t => (tiles, b2t)
  | i :: rest, bn1, tiles, b2t =>
    if tiles i = -1 then
      sif_defragment_go rest bn1 tiles b2t
    else
      let bn2 := (tiles i).toNat
      let tn1 := b2t bn1
      let tiles1 := defrag_upd tiles i (bn1 : Int)
      let b2t1 := defrag_upd b2t bn1 (i : Int)
      if tn1 ≠ -1 then
        sif_defragment_go rest (bn1 + 1)
          (defrag_upd tiles1 tn1.toNat (bn2 : Int))
          (defrag_upd b2t1 bn2 tn1)
      else
        sif_defragment_go rest (bn1 + 1) tiles1 (defrag_upd b2t1 bn2 (-1))

/-- `sif_defragment(file)` restricted to its effect on the two block
maps: early return on a read-only handle or a cleared defragment flag,
otherwise the walk over all `n_tiles` tiles. -/
def sif_defragment_maps (read_only : Bool) (defragment_flag : Int) (n : Nat)
    (tiles b2t : Nat → Int) : (Nat → Int) × (Nat → Int) :=
  if read_only ∨ defragment_flag = 0 then (tiles, b2t)
  else sif_defragment_go (List.range n) 0 tiles b2t

/-- Well-formedness of the two inverse block maps, as established by
`sif_create` / `sif_open`: a tile's non-negative `block_num` is a valid
block index mapping back to the tile, and a block's non-negative tile
index is a valid tile index mapping back to the block. -/
def DefragWF (n : Nat) (tiles b2t : Nat → Int) : Prop :=
  (∀ t, t < n → tiles t ≠ -1 →
    0 ≤ tiles t ∧ (tiles t).toNat < n ∧ b2t (tiles t).toNat = (t : Int)) ∧
  (∀ b, b < n → b2t b ≠ -1 →
    0 ≤ b2t b ∧ (b2t b).toNat < n ∧ tiles (b2t b).toNat = (b : Int))

/-- Number of live tiles among the first `i` tile indices. -/
def liveCount (tiles0 : Nat → Int) (i : Nat) : Nat :=
  ((List.range i).filter fun t => decide (tiles0 t ≠ -1)).length

/-- The live tile indices in strictly increasing order. -/
def liveList (tiles0 : Nat → Int) (n : Nat) : List Nat :=
  (List.range n).filter fun t => decide (tiles0 t ≠ -1)

/-- Loop invariant of `sif_defragment`, after the tiles before index `i`
have been processed: liveness of every tile is as it originally was, the
two maps are still inverse on their live entries, and every processed
live tile already holds its final block, namely its rank among the live
tiles. -/
def DefragInv (tiles0 : Nat → Int) (n i : Nat) (tiles b2t : Nat → Int) : Prop :=
  (∀ t, t < n → (tiles t = -1 ↔ tiles0 t = -1)) ∧
  (∀ t, t < n → tiles t ≠ -1 →
    0 ≤ tiles t ∧ (tiles t).toNat < n ∧ b2t (tiles t).toNat = (t : Int)) ∧
  (∀ b, b < n → b2t b ≠ -1 →
    0 ≤ b2t b ∧ (b2t b).toNat < n ∧ tiles (b2t b).toNat = (b : Int)) ∧
  (∀ t, t < i → tiles0 t ≠ -1 → tiles t = (liveCount tiles0 t : Int))

/-- Byte-array update `l[i] |= v`: the update shape shared by
`SIF_SET_BIT` and the trailing-byte fix-up inside
`_sif_completely_uniform_shallow`; used to state the stability lemmas
about repeated flag updates. -/
def list_or_set (l : List Nat) (i v : Nat) : List Nat :=
  l.set i (l.getD i 0 ||| v)

/-! ## Concrete states used as evidence and witnesses -/

/-- A freshly created 4-wide, 2-high, 1-band, byte-pixel image stored as
one 4 x 2 tile. -/
def exC1_f0 : sif_file := (sif_create 4 2 1 1 0 0 0 4 2 0).getD default

/-- The identity byte buffer filling that image. -/
def exC1_B : List Nat := [0, 1, 2, 3, 4, 5, 6, 7]

/-- The image after `sif_set_raster(B, 0, 0, 4, 2, 0)`. -/
def exC1_fw : sif_file := sif_set_raster exC1_f0 exC1_B 0 0 4 2 0

/-- The bytes `sif_get_raster(0, 0, 4, 2, 0)` then returns. -/
def exC1_out : List Nat := (sif_get_raster exC1_fw (List.replicate 8 0) 0 0 4 2 0).2

/-- A freshly created 2-wide, 1-high, 5-band, byte-pixel image stored as
one 2 x 1 tile (bands mod 8 = 5 exercises the trailing-byte mask). -/
def exC2_f0 : sif_file := (sif_create 2 1 5 1 0 0 0 2 1 0).getD default

/-- The same image after writing the non-uniform slice `[1, 2]` to
band 4, which materializes block 0 and clears band 4's uniform bit. -/
def exC2_f1 : sif_file := sif_set_tile_slice exC2_f0 [1, 2] 0 0 4

/-- The same image after additionally filling band 0 with the uniform
value 9. -/
def exC2_f2 : sif_file := sif_fill_tile_slice exC2_f1 0 0 0 [9]

/-- A freshly created one-tile single-band image whose handle carries the
sticky error `SIF_ERROR_READ`. -/
def exC6_f : sif_file :=
  { (sif_create 2 1 1 1 0 0 0 2 1 0).getD default with error := SIF_ERROR_READ }

/-- Witness block maps for the defragmenter: three tiles, tile 0 uniform
(no block), tile 1 in block 2, tile 2 in block 0. -/
def exC4_tiles : Nat → Int := fun t => if t = 1 then 2 else if t = 2 then 0 else -1

/-- The matching inverse map: block 0 holds tile 2, block 1 is free,
block 2 holds tile 1. -/
def exC4_b2t : Nat → Int := fun b => if b = 0 then 2 else if b = 2 then 1 else -1

/-- A freshly created one-tile single-band image (witness state). -/
def exW_f0 : sif_file := (sif_create 2 1 1 1 0 0 0 2 1 0).getD default

/-! ## Theorems -/

/-! Helper lemmas about the list primitives of the model. -/

theorem list_overwrite_length (d s : List Nat) (p : Nat) :
    (list_overwrite d p s).length = d.length := by
  simp [list_overwrite]
  omega

theorem list_overwrite_of_le (d s : List Nat) (p : Nat) (h : d.length ≤ p) :
    list_overwrite d p s = d := by
  unfold list_overwrite
  rw [List.take_of_length_le h, Nat.sub_eq_zero_of_le h]
  rw [List.take_zero, List.drop_eq_nil_of_le (by omega)]
  simp

theorem list_overwrite_take (d s : List Nat) (p : Nat) :
    (list_overwrite d p s).take p = d.take p := by
  rcases le_or_lt p d.length with h | h
  · unfold list_overwrite
    have h1 : (d.take p).length = p := by simp; omega
    rw [List.append_assoc, List.take_append_eq_append_take, h1, Nat.sub_self,
      List.take_zero, List.append_nil, List.take_take, Nat.min_self]
  · rw [list_overwrite_of_le d s p (by omega)]

theorem list_overwrite_drop (d s : List Nat) (p : Nat) :
    (list_overwrite d p s).drop (p + s.length) = d.drop (p + s.length) := by
  rcases le_or_lt p d.length with h | h
  · rcases le_or_lt (p + s.length) d.length with h2 | h2
    · unfold list_overwrite
      have h1 : (d.take p).length = p := by simp; omega
      have h3 : (s.take (d.length - p)).length = s.length := by simp; omega
      have e1 : (d.take p).drop (p + s.length) = [] :=
        List.drop_eq_nil_of_le (by simp)
      have e2 : (s.take (d.length - p)).drop (p + s.length - p) = [] :=
        List.drop_eq_nil_of_le (by simp)
      rw [List.append_assoc, List.drop_append_eq_append_drop, e1, h1,
        List.nil_append, List.drop_append_eq_append_drop, e2, h3, List.nil_append]
      have h4 : p + s.length - p - s.length = 0 := by omega
      rw [h4, List.drop_zero]
    · rw [List.drop_eq_nil_of_le (by rw [list_overwrite_length]; omega)]
      rw [List.drop_eq_nil_of_le (by omega)]
  · rw [list_overwrite_of_le d s p (by omega)]

theorem list_overwrite_overwrite (d s : List Nat) (p : Nat) :
    list_overwrite (list_overwrite d p s) p s = list_overwrite d p s := by
  conv_lhs => rw [list_overwrite]
  rw [list_overwrite_length, list_overwrite_take, list_overwrite_drop]
  conv_rhs => rw [list_overwrite]

theorem list_set_getD (l : List Nat) (i : Nat) (d : Nat) :
    l.set i (l.getD i d) = l := by
  induction l generalizing i with
  | nil => rfl
  | cons a t ih =>
    cases i with
    | zero => rfl
    | succ j =>
      simp only [List.set_cons_succ, List.getD_cons_succ]
      exact congrArg (List.cons a) (ih j)

theorem list_getD_set_self (l : List Nat) (i : Nat) (v d : Nat) (h : i < l.length) :
    (l.set i v).getD i d = v := by
  simp [List.getD, List.getElem?_set_self, h]

theorem list_getD_set_ne (l : List Nat) (i j : Nat) (v d : Nat) (h : i ≠ j) :
    (l.set i v).getD j d = l.getD j d := by
  simp [List.getD, List.getElem?_set_ne h]

theorem or_or_self (a m : Nat) : a ||| m ||| m = a ||| m := by
  rw [Nat.or_assoc, Nat.or_self]

theorem or_or_right_comm (a m c : Nat) : a ||| m ||| c ||| m = a ||| m ||| c := by
  rw [Nat.or_assoc (a ||| m), Nat.or_comm c m, ← Nat.or_assoc (a ||| m), or_or_self]

/-- Running fold of the metadata size accumulator. -/
theorem meta_foldl_add (store : MetaStore) :
    ∀ init : Int,
      store.foldl (fun e md => e + sif_meta_record_bytes md) init
        = init + sif_meta_data_total_bytes store := by
  induction store with
  | nil => intro init; simp [sif_meta_data_total_bytes]
  | cons md rest ih =>
    intro init
    simp only [List.foldl_cons, ih, sif_meta_data_total_bytes, List.map_cons, List.sum_cons]
    ring

/-- Claim C5 (code_bug evidence): on a little-endian host with a
big-endian file code, the endian adapter leaves the two-byte element
`[1, 2]` unchanged instead of reversing it to `[2, 1]`; the inner loop of
`_sif_swap_bytes` swaps `buffer[k]` with `buffer[i]` (not `buffer[j]`)
and computes the partner index from `elem_size / 2`, so no byte of a
2-byte element ever moves. -/
theorem sif_swap_bytes_does_not_reverse_elements :
    sif_buffer_host_to_code true [1, 2] 2 2 SIF_SIMPLE_BIG_ENDIAN = [1, 2] ∧
      sif_buffer_host_to_code true [1, 2] 2 2 SIF_SIMPLE_BIG_ENDIAN
        ≠ elementwise_byte_reverse 2 [1, 2] := by
  constructor
  · rfl
  · decide

/-- Claim C3 (code_bug evidence): overwriting the key `"k"` (byte 107)
holding `"ab"` (bytes 97 98 0) with the same-length value `"cd"`
(bytes 99 100 0) leaves the stored value untouched, because
`_sif_set_meta_data_len` copies the new value only when the lengths
differ; a subsequent `sif_get_meta_data_binary` returns `"ab"`, not the
last-written `"cd"`. -/
theorem sif_meta_data_same_length_overwrite_is_dropped :
    sif_get_meta_data_binary
        (sif_set_meta_data (sif_set_meta_data [] [107] [97, 98]) [107] [99, 100]) [107]
      = (SIF_ERROR_NONE, some ([97, 98, 0], 3)) ∧
    sif_get_meta_data_binary
        (sif_set_meta_data (sif_set_meta_data [] [107] [97, 98]) [107] [99, 100]) [107]
      ≠ (SIF_ERROR_NONE, some ([99, 100, 0], 3)) := by
  constructor
  · rfl
  · decide

/-- Claim C7 (code_bug evidence): the stored value `[97, 0]` (the string
`"a"`, which ends in a NUL byte) makes `sif_get_meta_data` report
`SIF_ERROR_META_DATA_VALUE`, because `_sif_null_terminator_check` tests
`v[0]` on every loop iteration instead of `v[i]` and therefore accepts
only values whose FIRST byte is NUL. -/
theorem sif_get_meta_data_errors_on_nul_terminated_value :
    (sif_get_meta_data [{ key := [107], value := [97, 0] }] [107]).1
      = SIF_ERROR_META_DATA_VALUE := by
  rfl

/-- Claim C8 (counterexample): with `base_location = 100`,
`tile_bytes = 10`, no used blocks, and a single record of key `"k"`
(key_length 2 with the NUL) and a 1-byte value, the metadata region starts
at 100 and spans 11 bytes, yet `_sif_write_meta_data` truncates at 112,
not at the claimed position 111 = start + total size. -/
theorem sif_write_meta_data_truncation_off_by_one :
    sif_write_meta_data_trunc_pos 100 10 [-1] [{ key := [107], value := [7] }]
      ≠ sif_meta_data_start 100 10 [-1]
        + sif_meta_data_total_bytes [{ key := [107], value := [7] }] := by
  decide

/-- Claim C8 (amended): after the metadata store is written the file is
truncated one byte PAST the end of the metadata region: the truncation
position equals start-of-metadata plus the total size of all records plus
one, so the file retains one trailing byte beyond the last metadata
byte. -/
theorem sif_write_meta_data_trunc_pos_eq (base tile_bytes : Int) (b2t : List Int)
    (store : MetaStore) :
    sif_write_meta_data_trunc_pos base tile_bytes b2t store
      = sif_meta_data_start base tile_bytes b2t + sif_meta_data_total_bytes store + 1 := by
  simp only [sif_write_meta_data_trunc_pos, sif_meta_data_start]
  rw [meta_foldl_add]

/-- Claim C1 (code_bug evidence): the raster window round-trip fails.
For the valid geometry width 4, height 2, bands 1, tile 4 x 2,
data_unit_size 1 and the buffer `B = [0..7]`, writing `B` with
`sif_set_raster(0, 0, 4, 2, 0)` and reading the same window back with
`sif_get_raster` yields `[0, 4, 5, 6, 4, 5, 6, 7]`, not `B`: both raster
functions address the tile slice buffer with row stride
`trs = n_tiles_across` (here 1) instead of `tile_width * data_unit_size`
(here 4), so consecutive rows overlap inside the slice buffer. -/
theorem sif_raster_roundtrip_fails_at_stride_bug :
    exC1_out = [0, 4, 5, 6, 4, 5, 6, 7] ∧ exC1_out ≠ exC1_B ∧ exC1_fw.error = 0 := by
  refine ⟨rfl, by decide, rfl⟩

/-- Claim C2 (code_bug evidence): with `bands = 5`, after
`sif_set_tile_slice` stores the non-uniform slice `[1, 2]` in band 4
(band 4's uniform bit is clear, the tile holds block 0, and the stored
slice bytes `[1, 2]` fail the code's own `_sif_is_uniform` test), a mere
`sif_fill_tile_slice` on band 0 frees the tile's block:
`_sif_completely_uniform_shallow` ORs `0xFF >> (8 - bands % 8) = 0x1F`
into the flag byte, which sets the uniform bits of bands 3 and 4 rather
than the padding bits, making the all-ones test pass and `block_num`
become -1 while band 4 is not uniform. -/
theorem sif_uniform_mask_frees_block_with_nonuniform_band :
    SIF_GET_BIT (exC2_f1.tiles.getD 0 default).uniform_flags 4 = 0 ∧
    (exC2_f1.tiles.getD 0 default).block_num = 0 ∧
    (exC2_f1.disk_blocks.getD 0 []).getD 4 [] = [1, 2] ∧
    sif_is_uniform (exC2_f0.header.getD sif_header_zero) [1, 2] 2 1 = false ∧
    (exC2_f2.tiles.getD 0 default).block_num = -1 ∧
    exC2_f2.blocks_to_tiles = [-1] := by
  refine ⟨rfl, rfl, rfl, rfl, rfl, rfl⟩

/-- Claim C6 (counterexample): on a handle whose sticky error field holds
`SIF_ERROR_READ`, `sif_fill_tile_slice` does not short-circuit: it
mutates the in-memory tile record and writes the tile header through
(the `SIF_CHECK_FILE` macro tests only the null handle, the null header
and the version, never the error field). -/
theorem sif_fill_tile_slice_proceeds_despite_sticky_error :
    exC6_f.error ≠ 0 ∧
    (sif_fill_tile_slice exC6_f 0 0 0 [9]).tiles ≠ exC6_f.tiles ∧
    (sif_fill_tile_slice exC6_f 0 0 0 [9]).disk_tile_headers ≠ exC6_f.disk_tile_headers := by
  refine ⟨by decide, by decide, by decide⟩

/-- Claim C10: `sif_create` stores the caller's `intrinsic_write`
argument into the header and then unconditionally overwrites it with 1,
so every successfully created handle has `intrinsic_write = 1`; with that
flag set, `sif_set_tile_slice` never marks a tile dirty (the dirty flag
is set only under `intrinsic_write == 0`). -/
theorem sif_create_forces_intrinsic_write
    (width height bands data_unit_size user_data_type : Int)
    (consolidate_on_close defragment_on_close : Int)
    (tile_width tile_height intrinsic_write : Int) (f : sif_file)
    (hc : sif_create width height bands data_unit_size user_data_type
        consolidate_on_close defragment_on_close tile_width tile_height
        intrinsic_write = some f) :
    ∃ hd, f.header = some hd ∧ hd.intrinsic_write = 1 ∧
      ∀ (buffer : List Nat) (tx ty band : Int),
        (sif_set_tile_slice f buffer tx ty band).dirty_tiles = f.dirty_tiles := by
  unfold sif_create at hc
  split at hc
  · exact absurd hc (by simp)
  · injection hc with hc
    subst hc
    refine ⟨_, rfl, rfl, ?_⟩
    intro buffer tx ty band
    simp only [sif_set_tile_slice]
    split
    · rfl
    · split
      · rfl
      · split
        · rfl
        · split
          · rfl
          · split
            · split
              · rfl
              · rfl
            · have hfalse : ((1 : Int) == 0) = false := rfl
              simp only [hfalse, Bool.false_eq_true, if_false]
              split <;> rfl

/-- Witness for C10 at the concrete creation call
`sif_create(2, 1, 1, 1, 0, 0, 0, 2, 1, 0)` (whose `intrinsic_write`
argument is 0). -/
theorem sif_create_forces_intrinsic_write_witness :
    sif_create 2 1 1 1 0 0 0 2 1 0 = some exW_f0 ∧
      (∃ hd, exW_f0.header = some hd ∧ hd.intrinsic_write = 1 ∧
        ∀ (buffer : List Nat) (tx ty band : Int),
          (sif_set_tile_slice exW_f0 buffer tx ty band).dirty_tiles
            = exW_f0.dirty_tiles) :=
  ⟨rfl, sif_create_forces_intrinsic_write 2 1 1 1 0 0 0 2 1 0 exW_f0 rfl⟩

/-- Claim C6 (amended): public operations do not consult the sticky error
field at all — `sif_fill_tile_slice` on a handle carrying any error value
`e` behaves exactly as on a clean handle, with the error field merely
preserved; the early checks cover only the null handle, the null header
and the format version. -/
theorem sif_fill_tile_slice_ignores_error_field
    (f : sif_file) (hd : sif_header) (tx ty band : Int) (v : List Nat) (e : Int)
    (hhd : f.header = some hd) (hver : ¬ SIF_VERSION < hd.version)
    (htn : ¬ (tx < 0 ∨ ty < 0 ∨ hd.n_tiles_across ≤ tx))
    (hband : ¬ (band < 0 ∨ hd.bands ≤ band))
    (hro : f.read_only = false) :
    sif_fill_tile_slice { f with error := e } tx ty band v
      = { sif_fill_tile_slice { f with error := 0 } tx ty band v with error := e } := by
  obtain ⟨hdr, ro, err, ups, tiles, b2t, dirty, db, dth⟩ := f
  simp only at hhd hro
  subst hhd
  subst hro
  simp only [sif_fill_tile_slice]
  rw [if_neg hver, if_neg hver, if_neg htn, if_neg htn, if_neg hband, if_neg hband]
  simp only [Bool.false_eq_true, if_false]
  split
  · rfl
  · rfl

/-- Witness for the amended C6 on a concrete one-tile handle with sticky
error 6 and the call `sif_fill_tile_slice(0, 0, 0, [9])`. -/
theorem sif_fill_tile_slice_ignores_error_field_witness :
    exW_f0.header = some (exW_f0.header.getD sif_header_zero) ∧
    ¬ SIF_VERSION < (exW_f0.header.getD sif_header_zero).version ∧
    ¬ ((0 : Int) < 0 ∨ (0 : Int) < 0 ∨
        (exW_f0.header.getD sif_header_zero).n_tiles_across ≤ 0) ∧
    ¬ ((0 : Int) < 0 ∨ (exW_f0.header.getD sif_header_zero).bands ≤ 0) ∧
    exW_f0.read_only = false ∧
    sif_fill_tile_slice { exW_f0 with error := 6 } 0 0 0 [9]
      = { sif_fill_tile_slice { exW_f0 with error := 0 } 0 0 0 [9] with error := 6 } :=
  ⟨rfl, by decide, by decide, by decide, rfl,
    sif_fill_tile_slice_ignores_error_field exW_f0 (exW_f0.header.getD sif_header_zero)
      0 0 0 [9] 6 rfl (by decide) (by decide) (by decide) rfl⟩

/-! Helper lemmas for the idempotence of the uniform-fill path: repeated
bit-set and trailing-byte-mask updates stabilize after one application. -/

theorem listg_getD_set_self {α : Type} (l : List α) (i : Nat) (v d : α) (h : i < l.length) :
    (l.set i v).getD i d = v := by
  simp [List.getD, List.getElem?_set_self, h]

theorem listg_getD_set_oob {α : Type} (l : List α) (i : Nat) (v d : α) (h : ¬ i < l.length) :
    (l.set i v).getD i d = l.getD i d := by
  rw [List.set_eq_of_length_le (Nat.le_of_not_lt h)]

theorem nat_or_right_comm (x y z : Nat) : x ||| y ||| z = x ||| z ||| y := by
  rw [Nat.or_assoc, Nat.or_comm y z, ← Nat.or_assoc]

theorem list_or_set_oob (l : List Nat) (i v : Nat) (h : l.length ≤ i) :
    list_or_set l i v = l :=
  List.set_eq_of_length_le h

theorem list_or_set_merge (l : List Nat) (i x y : Nat) :
    list_or_set (list_or_set l i x) i y = list_or_set l i (x ||| y) := by
  by_cases h : i < l.length
  · unfold list_or_set
    rw [list_getD_set_self _ _ _ _ h, List.set_set, Nat.or_assoc]
  · have hle := Nat.le_of_not_lt h
    rw [list_or_set_oob l i x hle, list_or_set_oob l i y hle,
      list_or_set_oob l i (x ||| y) hle]

theorem list_or_set_idem (l : List Nat) (i a : Nat) :
    list_or_set (list_or_set l i a) i a = list_or_set l i a := by
  rw [list_or_set_merge, Nat.or_self]

theorem list_or_set_comm (l : List Nat) (i j a b : Nat) (hij : i ≠ j) :
    list_or_set (list_or_set l i a) j b = list_or_set (list_or_set l j b) i a := by
  unfold list_or_set
  rw [list_getD_set_ne _ _ _ _ _ hij, list_getD_set_ne _ _ _ _ _ (Ne.symm hij),
    List.set_comm _ _ _ hij]

theorem list_or_set_stable (l : List Nat) (i j a b : Nat) :
    list_or_set (list_or_set (list_or_set (list_or_set l i a) j b) i a) j b
      = list_or_set (list_or_set l i a) j b := by
  by_cases hij : i = j
  · subst hij
    rw [list_or_set_merge, list_or_set_merge, list_or_set_merge, list_or_set_merge]
    have hor : a ||| (b ||| (a ||| b)) = a ||| b := by
      rw [← Nat.or_assoc a b (a ||| b), Nat.or_self]
    rw [hor]
  · have hji : j ≠ i := Ne.symm hij
    rw [list_or_set_comm (list_or_set l i a) j i b a hji, list_or_set_idem,
      list_or_set_idem]

theorem shallow_as_or_set (hd : sif_header) (flags : List Nat) :
    sif_completely_uniform_shallow hd flags
      = (list_or_set flags (hd.n_uniform_flags.toNat - 1)
          (255 >>> (8 - (hd.bands % 8).toNat)),
         sif_completely_uniform_loop
            (list_or_set flags (hd.n_uniform_flags.toNat - 1)
              (255 >>> (8 - (hd.bands % 8).toNat)))
            hd.n_uniform_flags.toNat 0 255 == 255) := rfl

theorem set_bit_as_or_set (l : List Nat) (b : Nat) :
    SIF_SET_BIT l b = list_or_set l (b / 8) (1 <<< (7 - b % 8)) := rfl

theorem shallow_set_bit_stable (hd : sif_header) (l : List Nat) (b : Nat) :
    sif_completely_uniform_shallow hd
        (SIF_SET_BIT (sif_completely_uniform_shallow hd (SIF_SET_BIT l b)).1 b)
      = sif_completely_uniform_shallow hd (SIF_SET_BIT l b) := by
  rw [set_bit_as_or_set, shallow_as_or_set, shallow_as_or_set, set_bit_as_or_set]
  dsimp only
  rw [list_or_set_stable]

theorem fill_tile_slice_main_eq (hd : sif_header) (e ups : Int)
    (tiles dth : List sif_tile) (b2t dirty : List Int)
    (db : List (List (List Nat))) (tx ty band : Int) (v : List Nat)
    (hver : ¬ SIF_VERSION < hd.version)
    (htn : ¬ (tx < 0 ∨ ty < 0 ∨ hd.n_tiles_across ≤ tx))
    (hband : ¬ (band < 0 ∨ hd.bands ≤ band)) :
    sif_fill_tile_slice ⟨some hd, false, e, ups, tiles, b2t, dirty, db, dth⟩ tx ty band v
      = (if (sif_completely_uniform_shallow hd
              (SIF_SET_BIT
                (tiles.getD (hd.n_tiles_across * ty + tx).toNat default).uniform_flags
                band.toNat)).2 ∧
            (tiles.getD (hd.n_tiles_across * ty + tx).toNat default).block_num ≠ -1 then
          (⟨some hd, false, e, ups,
            tiles.set (hd.n_tiles_across * ty + tx).toNat
              ⟨(sif_completely_uniform_shallow hd
                  (SIF_SET_BIT
                    (tiles.getD (hd.n_tiles_across * ty + tx).toNat default).uniform_flags
                    band.toNat)).1,
                list_overwrite
                  (tiles.getD (hd.n_tiles_across * ty + tx).toNat default).uniform_pixel_values
                  (hd.data_unit_size.toNat * band.toNat) (v.take hd.data_unit_size.toNat),
                -1⟩,
            b2t.set (tiles.getD (hd.n_tiles_across * ty + tx).toNat default).block_num.toNat (-1),
            dirty, db,
            dth.set (hd.n_tiles_across * ty + tx).toNat
              ⟨(sif_completely_uniform_shallow hd
                  (SIF_SET_BIT
                    (tiles.getD (hd.n_tiles_across * ty + tx).toNat default).uniform_flags
                    band.toNat)).1,
                list_overwrite
                  (tiles.getD (hd.n_tiles_across * ty + tx).toNat default).uniform_pixel_values
                  (hd.data_unit_size.toNat * band.toNat) (v.take hd.data_unit_size.toNat),
                -1⟩⟩ : sif_file)
        else
          ⟨some hd, false, e, ups,
            tiles.set (hd.n_tiles_across * ty + tx).toNat
              ⟨(sif_completely_uniform_shallow hd
                  (SIF_SET_BIT
                    (tiles.getD (hd.n_tiles_across * ty + tx).toNat default).uniform_flags
                    band.toNat)).1,
                list_overwrite
                  (tiles.getD (hd.n_tiles_across * ty + tx).toNat default).uniform_pixel_values
                  (hd.data_unit_size.toNat * band.toNat) (v.take hd.data_unit_size.toNat),
                (tiles.getD (hd.n_tiles_across * ty + tx).toNat default).block_num⟩,
            b2t, dirty, db,
            dth.set (hd.n_tiles_across * ty + tx).toNat
              ⟨(sif_completely_uniform_shallow hd
                  (SIF_SET_BIT
                    (tiles.getD (hd.n_tiles_across * ty + tx).toNat default).uniform_flags
                    band.toNat)).1,
                list_overwrite
                  (tiles.getD (hd.n_tiles_across * ty + tx).toNat default).uniform_pixel_values
                  (hd.data_unit_size.toNat * band.toNat) (v.take hd.data_unit_size.toNat),
                (tiles.getD (hd.n_tiles_across * ty + tx).toNat default).block_num⟩⟩) := by
  simp only [sif_fill_tile_slice]
  rw [if_neg hver, if_neg htn, if_neg hband]
  simp only [Bool.false_eq_true, if_false]

theorem list_getD_default {α : Type} (l : List α) (i : Nat) (d : α) (h : ¬ i < l.length) :
    l.getD i d = d := by
  rw [List.getD_eq_getElem?_getD, List.getElem?_eq_none (Nat.le_of_not_lt h)]
  rfl

/-- Claim C9: `sif_fill_tile_slice` is idempotent — calling it twice
with the same tile, band and uniform value yields exactly the same file
state (tile headers, block maps, written-through headers) as calling it
once — and a tile whose `block_num` was -1 before the fill still has
`block_num = -1` afterwards. -/
theorem sif_fill_tile_slice_idempotent
    (f : sif_file) (tx ty band : Int) (v : List Nat) :
    sif_fill_tile_slice (sif_fill_tile_slice f tx ty band v) tx ty band v
      = sif_fill_tile_slice f tx ty band v ∧
    (∀ hd, f.header = some hd →
      (f.tiles.getD (hd.n_tiles_across * ty + tx).toNat default).block_num = -1 →
      ((sif_fill_tile_slice f tx ty band v).tiles.getD
          (hd.n_tiles_across * ty + tx).toNat default).block_num = -1) := by
  obtain ⟨hdr, ro, e, ups, tiles, b2t, dirty, db, dth⟩ := f
  cases hdr with
  | none =>
    exact ⟨rfl, fun hd h => Option.noConfusion h⟩
  | some hd =>
    constructor
    · by_cases hver : SIF_VERSION < hd.version
      · simp only [sif_fill_tile_slice]
        rw [if_pos hver]
        dsimp only
        rw [if_pos hver]
      · by_cases htn : tx < 0 ∨ ty < 0 ∨ hd.n_tiles_across ≤ tx
        · simp only [sif_fill_tile_slice]
          rw [if_neg hver, if_pos htn]
          dsimp only
          rw [if_neg hver, if_pos htn]
        · by_cases hband : band < 0 ∨ hd.bands ≤ band
          · simp only [sif_fill_tile_slice]
            rw [if_neg hver, if_neg htn, if_pos hband]
            dsimp only
            rw [if_neg hver, if_neg htn, if_pos hband]
          · cases ro with
            | true =>
              simp only [sif_fill_tile_slice]
              rw [if_neg hver, if_neg htn, if_neg hband, if_pos trivial]
              dsimp only
              rw [if_neg hver, if_neg htn, if_neg hband]
              simp
            | false =>
              rw [fill_tile_slice_main_eq hd e ups tiles dth b2t dirty db tx ty band v
                hver htn hband]
              split
              next hc =>
                have ht : (hd.n_tiles_across * ty + tx).toNat < tiles.length := by
                  by_contra hcon
                  rw [list_getD_default tiles _ default hcon] at hc
                  exact hc.2 rfl
                rw [fill_tile_slice_main_eq hd e ups _ _ _ dirty db tx ty band v
                  hver htn hband]
                rw [listg_getD_set_self _ _ _ _ ht]
                rw [if_neg (by simp)]
                rw [shallow_set_bit_stable, list_overwrite_overwrite,
                  List.set_set, List.set_set]
              next hnc =>
                rw [fill_tile_slice_main_eq hd e ups _ _ _ dirty db tx ty band v
                  hver htn hband]
                by_cases ht : (hd.n_tiles_across * ty + tx).toNat < tiles.length
                · rw [listg_getD_set_self _ _ _ _ ht]
                  rw [shallow_set_bit_stable, list_overwrite_overwrite]
                  rw [if_neg hnc, List.set_set, List.set_set]
                · rw [listg_getD_set_oob _ _ _ _ ht]
                  rw [if_neg hnc, List.set_set, List.set_set]
    · intro hd' hhd hb
      injection hhd with h
      subst h
      simp only at hb
      by_cases hver : SIF_VERSION < hd.version
      · simp only [sif_fill_tile_slice]
        rw [if_pos hver]
        exact hb
      · by_cases htn : tx < 0 ∨ ty < 0 ∨ hd.n_tiles_across ≤ tx
        · simp only [sif_fill_tile_slice]
          rw [if_neg hver, if_pos htn]
          exact hb
        · by_cases hband : band < 0 ∨ hd.bands ≤ band
          · simp only [sif_fill_tile_slice]
            rw [if_neg hver, if_neg htn, if_pos hband]
            exact hb
          · cases ro with
            | true =>
              simp only [sif_fill_tile_slice]
              rw [if_neg hver, if_neg htn, if_neg hband, if_pos trivial]
              exact hb
            | false =>
              rw [fill_tile_slice_main_eq hd e ups tiles dth b2t dirty db tx ty band v
                hver htn hband]
              rw [if_neg (fun hcontra => hcontra.2 hb)]
              by_cases ht : (hd.n_tiles_across * ty + tx).toNat < tiles.length
              · simp only
                rw [listg_getD_set_self _ _ _ _ ht]
                exact hb
              · simp only
                rw [listg_getD_set_oob _ _ _ _ ht]
                exact hb

/-- Witness for C9: the fill `sif_fill_tile_slice(0, 0, 0, [9])` on a
concrete freshly created one-tile file, whose tile 0 has
`block_num = -1`. -/
theorem sif_fill_tile_slice_idempotent_witness :
    (sif_fill_tile_slice (sif_fill_tile_slice exW_f0 0 0 0 [9]) 0 0 0 [9]
        = sif_fill_tile_slice exW_f0 0 0 0 [9]) ∧
    exW_f0.header = some (exW_f0.header.getD sif_header_zero) ∧
    (exW_f0.tiles.getD 0 default).block_num = -1 ∧
    ((sif_fill_tile_slice exW_f0 0 0 0 [9]).tiles.getD 0 default).block_num = -1 :=
  ⟨(sif_fill_tile_slice_idempotent exW_f0 0 0 0 [9]).1, rfl, by decide,
    (sif_fill_tile_slice_idempotent exW_f0 0 0 0 [9]).2
      (exW_f0.header.getD sif_header_zero) rfl (by decide)⟩

/-! Helper lemmas for the defragmenter invariant. -/

theorem defrag_upd_self (f : Nat → Int) (i : Nat) (v : Int) : defrag_upd f i v i = v := by
  simp [defrag_upd]

theorem defrag_upd_ne (f : Nat → Int) (i : Nat) (v : Int) (j : Nat) (h : j ≠ i) :
    defrag_upd f i v j = f j := by
  simp [defrag_upd, h]

theorem liveCount_succ (t0 : Nat → Int) (i : Nat) :
    liveCount t0 (i + 1) = liveCount t0 i + (if t0 i = -1 then 0 else 1) := by
  unfold liveCount
  rw [List.range_succ, List.filter_append]
  by_cases h : t0 i = -1
  · simp [h]
  · simp [h]

theorem liveCount_le_self (t0 : Nat → Int) (i : Nat) : liveCount t0 i ≤ i := by
  unfold liveCount
  calc ((List.range i).filter fun t => decide (t0 t ≠ -1)).length
      ≤ (List.range i).length := List.length_filter_le _ _
    _ = i := List.length_range i

theorem liveCount_mono (t0 : Nat → Int) {i j : Nat} (h : i ≤ j) :
    liveCount t0 i ≤ liveCount t0 j := by
  induction j with
  | zero =>
    have h0 : i = 0 := by omega
    subst h0
    exact Nat.le_refl _
  | succ m ih =>
    rcases Nat.lt_or_ge i (m + 1) with hlt | hge
    · have : liveCount t0 i ≤ liveCount t0 m := ih (by omega)
      rw [liveCount_succ]
      split <;> omega
    · have : i = m + 1 := by omega
      subst this
      exact Nat.le_refl _

theorem liveCount_lt_of_live (t0 : Nat → Int) {t n : Nat} (ht : t < n) (hl : t0 t ≠ -1) :
    liveCount t0 t < liveCount t0 n := by
  have h1 : liveCount t0 (t + 1) = liveCount t0 t + 1 := by
    rw [liveCount_succ]
    simp [hl]
  have h2 : liveCount t0 (t + 1) ≤ liveCount t0 n := liveCount_mono t0 (by omega)
  omega

theorem liveList_length (t0 : Nat → Int) (n : Nat) :
    (liveList t0 n).length = liveCount t0 n := rfl

theorem liveList_getD (t0 : Nat → Int) :
    ∀ (n t : Nat), t < n → t0 t ≠ -1 →
      liveCount t0 t < (liveList t0 n).length ∧
      (liveList t0 n).getD (liveCount t0 t) 0 = t := by
  intro n
  induction n with
  | zero => intro t ht; omega
  | succ m ih =>
    intro t ht hlive
    have hsplit : liveList t0 (m + 1)
        = liveList t0 m ++ (if t0 m = -1 then [] else [m]) := by
      unfold liveList
      rw [List.range_succ, List.filter_append]
      by_cases h : t0 m = -1
      · simp [h]
      · simp [h]
    rcases Nat.lt_or_ge t m with h | h
    · obtain ⟨ih1, ih2⟩ := ih t h hlive
      rw [hsplit]
      constructor
      · rw [List.length_append]
        omega
      · rw [List.getD_append _ _ _ _ ih1]
        exact ih2
    · have ht' : t = m := by omega
      subst ht'
      rw [hsplit]
      have hlen : (liveList t0 t).length = liveCount t0 t := rfl
      constructor
      · rw [List.length_append]
        simp [hlive]
        omega
      · rw [List.getD_append_right (liveList t0 t) _ 0 (liveCount t0 t) (le_of_eq hlen)]
        rw [hlen, Nat.sub_self]
        simp [hlive]

theorem defrag_go_inv (tiles0 : Nat → Int) (n : Nat) :
    ∀ (m i : Nat) (tiles b2t : Nat → Int),
      i + m = n →
      DefragInv tiles0 n i tiles b2t →
      DefragInv tiles0 n n
        (sif_defragment_go (List.range' i m) (liveCount tiles0 i) tiles b2t).1
        (sif_defragment_go (List.range' i m) (liveCount tiles0 i) tiles b2t).2 := by
  intro m
  induction m with
  | zero =>
    intro i tiles b2t hin hinv
    have hi : i = n := by omega
    subst hi
    simpa [sif_defragment_go] using hinv
  | succ mm ih =>
    intro i tiles b2t hin hinv
    obtain ⟨inv1, inv2, inv3, inv4⟩ := hinv
    have hi_lt : i < n := by omega
    rw [List.range'_succ]
    by_cases hdead : tiles i = -1
    · -- dead tile: the loop body is skipped and the cursor stays put
      have h0 : tiles0 i = -1 := (inv1 i hi_lt).mp hdead
      have hcount : liveCount tiles0 (i + 1) = liveCount tiles0 i := by
        rw [liveCount_succ]
        simp [h0]
      have hstep : sif_defragment_go (i :: List.range' (i + 1) mm)
            (liveCount tiles0 i) tiles b2t
          = sif_defragment_go (List.range' (i + 1) mm) (liveCount tiles0 i) tiles b2t := by
        rw [sif_defragment_go, if_pos hdead]
      rw [hstep, ← hcount]
      refine ih (i + 1) tiles b2t (by omega) ⟨inv1, inv2, inv3, ?_⟩
      intro t ht hl
      rcases Nat.lt_or_ge t i with hti | hti
      · exact inv4 t hti hl
      · have : t = i := by omega
        subst this
        exact absurd h0 hl
    · -- live tile
      have hlive0 : tiles0 i ≠ -1 := fun h => hdead ((inv1 i hi_lt).mpr h)
      obtain ⟨hpos, hbn2lt, hback⟩ := inv2 i hi_lt hdead
      have htilesi : tiles i = ((tiles i).toNat : Int) := (Int.toNat_of_nonneg hpos).symm
      have hcount : liveCount tiles0 (i + 1) = liveCount tiles0 i + 1 := by
        rw [liveCount_succ]
        simp [hlive0]
      have hc_lt : liveCount tiles0 i < n :=
        Nat.lt_of_lt_of_le (liveCount_lt_of_live tiles0 hi_lt hlive0)
          (liveCount_le_self tiles0 n)
      by_cases htn : b2t (liveCount tiles0 i) = -1
      · -- the write-cursor block is free: the tile moves there, its old block is freed
        have hstep : sif_defragment_go (i :: List.range' (i + 1) mm)
              (liveCount tiles0 i) tiles b2t
            = sif_defragment_go (List.range' (i + 1) mm) (liveCount tiles0 i + 1)
                (defrag_upd tiles i ((liveCount tiles0 i : Nat) : Int))
                (defrag_upd
                  (defrag_upd b2t (liveCount tiles0 i) (i : Int))
                  ((tiles i).toNat) (-1)) := by
          rw [sif_defragment_go, if_neg hdead]
          dsimp only
          rw [if_neg (by simpa using htn)]
        rw [hstep, ← hcount]
        have hcbn2 : liveCount tiles0 i ≠ (tiles i).toNat := by
          intro h
          rw [h, hback] at htn
          omega
        refine ih (i + 1) _ _ (by omega) ⟨?_, ?_, ?_, ?_⟩
        · -- liveness preserved
          intro t ht
          by_cases h2 : t = i
          · subst h2
            rw [defrag_upd_self]
            exact iff_of_false (by omega) hlive0
          · rw [defrag_upd_ne _ _ _ _ h2]
            exact inv1 t ht
        · -- tile-to-block inverse
          intro t ht hlv
          by_cases h2 : t = i
          · subst h2
            rw [defrag_upd_self]
            refine ⟨by omega, by simpa using hc_lt, ?_⟩
            rw [Int.toNat_natCast]
            rw [defrag_upd_ne _ _ _ _ hcbn2, defrag_upd_self]
          · rw [defrag_upd_ne _ _ _ _ h2] at hlv ⊢
            obtain ⟨ha, hb, hcc⟩ := inv2 t ht hlv
            refine ⟨ha, hb, ?_⟩
            have hne_bn2 : (tiles t).toNat ≠ (tiles i).toNat := by
              intro h
              rw [h, hback] at hcc
              have : t = i := by omega
              exact h2 this
            have hne_c : (tiles t).toNat ≠ liveCount tiles0 i := by
              intro h
              rw [h, htn] at hcc
              omega
            rw [defrag_upd_ne _ _ _ _ hne_bn2, defrag_upd_ne _ _ _ _ hne_c]
            exact hcc
        · -- block-to-tile inverse
          intro b hb hbl
          by_cases h2 : b = (tiles i).toNat
          · subst h2
            rw [defrag_upd_self] at hbl
            exact absurd rfl hbl
          · rw [defrag_upd_ne _ _ _ _ h2] at hbl ⊢
            by_cases h3 : b = liveCount tiles0 i
            · subst h3
              rw [defrag_upd_self] at hbl ⊢
              refine ⟨by omega, by simpa using hi_lt, ?_⟩
              rw [Int.toNat_natCast, defrag_upd_self]
            · rw [defrag_upd_ne _ _ _ _ h3] at hbl ⊢
              obtain ⟨ha, hbb, hcc⟩ := inv3 b hb hbl
              refine ⟨ha, hbb, ?_⟩
              have hne_i : (b2t b).toNat ≠ i := by
                intro h
                rw [h] at hcc
                have hbe : (b : Int) = ((tiles i).toNat : Int) := by
                  rw [← hcc]
                  exact htilesi
                have : b = (tiles i).toNat := by omega
                exact h2 this
              rw [defrag_upd_ne _ _ _ _ hne_i]
              exact hcc
        · -- processed prefix holds final ranks
          intro t ht hlv
          rcases Nat.lt_or_ge t i with hti | hti
          · rw [defrag_upd_ne _ _ _ _ (by omega : t ≠ i)]
            exact inv4 t hti hlv
          · have : t = i := by omega
            subst this
            rw [defrag_upd_self]
      · -- the write-cursor block is occupied by an unprocessed tile: swap
        have hstep : sif_defragment_go (i :: List.range' (i + 1) mm)
              (liveCount tiles0 i) tiles b2t
            = sif_defragment_go (List.range' (i + 1) mm) (liveCount tiles0 i + 1)
                (defrag_upd
                  (defrag_upd tiles i ((liveCount tiles0 i : Nat) : Int))
                  ((b2t (liveCount tiles0 i)).toNat) (((tiles i).toNat : Nat) : Int))
                (defrag_upd
                  (defrag_upd b2t (liveCount tiles0 i) (i : Int))
                  ((tiles i).toNat) (b2t (liveCount tiles0 i))) := by
          rw [sif_defragment_go, if_neg hdead]
          dsimp only
          rw [if_pos (by simpa using htn)]
        rw [hstep, ← hcount]
        obtain ⟨htpos, htlt, htb⟩ := inv3 (liveCount tiles0 i) hc_lt htn
        have htn1eq : b2t (liveCount tiles0 i)
            = ((b2t (liveCount tiles0 i)).toNat : Int) :=
          (Int.toNat_of_nonneg htpos).symm
        have ht1_ge : ¬ (b2t (liveCount tiles0 i)).toNat < i := by
          intro hlt
          have hlive_t1 : tiles ((b2t (liveCount tiles0 i)).toNat) ≠ -1 := by
            rw [htb]
            omega
          have hl0 : tiles0 ((b2t (liveCount tiles0 i)).toNat) ≠ -1 :=
            fun h => hlive_t1 ((inv1 _ (Nat.lt_trans hlt hi_lt)).mpr h)
          have h4 := inv4 _ hlt hl0
          rw [htb] at h4
          have heq : liveCount tiles0 ((b2t (liveCount tiles0 i)).toNat)
              = liveCount tiles0 i := by omega
          have hsucc : liveCount tiles0 ((b2t (liveCount tiles0 i)).toNat + 1)
              = liveCount tiles0 ((b2t (liveCount tiles0 i)).toNat) + 1 := by
            rw [liveCount_succ]
            simp [hl0]
          have hmono : liveCount tiles0 ((b2t (liveCount tiles0 i)).toNat + 1)
              ≤ liveCount tiles0 i := liveCount_mono tiles0 (by omega)
          omega
        refine ih (i + 1) _ _ (by omega) ⟨?_, ?_, ?_, ?_⟩
        · -- liveness preserved
          intro t ht
          by_cases h1 : t = (b2t (liveCount tiles0 i)).toNat
          · rw [h1, defrag_upd_self]
            refine iff_of_false (by omega) ?_
            intro h
            have hTn := (inv1 _ (h1 ▸ ht)).mpr h
            rw [htb] at hTn
            omega
          · by_cases h2 : t = i
            · subst h2
              rw [defrag_upd_ne _ _ _ _ h1, defrag_upd_self]
              exact iff_of_false (by omega) hlive0
            · rw [defrag_upd_ne _ _ _ _ h1, defrag_upd_ne _ _ _ _ h2]
              exact inv1 t ht
        · -- tile-to-block inverse
          intro t ht hlv
          by_cases h1 : t = (b2t (liveCount tiles0 i)).toNat
          · subst h1
            rw [defrag_upd_self]
            refine ⟨by omega, ?_, ?_⟩
            · rw [Int.toNat_natCast]
              exact hbn2lt
            · rw [Int.toNat_natCast, defrag_upd_self]
              exact htn1eq
          · by_cases h2 : t = i
            · have h1i : ¬ i = (b2t (liveCount tiles0 i)).toNat := h2 ▸ h1
              rw [h2] at hlv ⊢
              rw [defrag_upd_ne _ _ _ _ h1i, defrag_upd_self]
              have hCBN2 : liveCount tiles0 i ≠ (tiles i).toNat := by
                intro h
                have hX : b2t (liveCount tiles0 i) = (i : Int) := by
                  rw [h]
                  exact hback
                have hY : (b2t (liveCount tiles0 i)).toNat = i := by
                  rw [hX]
                  exact Int.toNat_natCast i
                exact h1i hY.symm
              refine ⟨by omega, by simpa using hc_lt, ?_⟩
              rw [Int.toNat_natCast, defrag_upd_ne _ _ _ _ hCBN2, defrag_upd_self]
            · rw [defrag_upd_ne _ _ _ _ h1, defrag_upd_ne _ _ _ _ h2] at hlv ⊢
              obtain ⟨ha, hb, hcc⟩ := inv2 t ht hlv
              refine ⟨ha, hb, ?_⟩
              have hne_bn2 : (tiles t).toNat ≠ (tiles i).toNat := by
                intro h
                rw [h, hback] at hcc
                have : t = i := by omega
                exact h2 this
              have hne_c : (tiles t).toNat ≠ liveCount tiles0 i := by
                intro h
                rw [h] at hcc
                have hZ : (b2t (liveCount tiles0 i)).toNat = t := by
                  rw [hcc]
                  exact Int.toNat_natCast t
                exact h1 hZ.symm
              rw [defrag_upd_ne _ _ _ _ hne_bn2, defrag_upd_ne _ _ _ _ hne_c]
              exact hcc
        · -- block-to-tile inverse
          intro b hb hbl
          by_cases h2 : b = (tiles i).toNat
          · subst h2
            rw [defrag_upd_self] at hbl ⊢
            refine ⟨htpos, htlt, ?_⟩
            rw [defrag_upd_self]
          · rw [defrag_upd_ne _ _ _ _ h2] at hbl ⊢
            by_cases h3 : b = liveCount tiles0 i
            · subst h3
              rw [defrag_upd_self] at hbl ⊢
              have hIT1 : i ≠ (b2t (liveCount tiles0 i)).toNat := by
                intro h
                have h5 : tiles i = ((liveCount tiles0 i : Nat) : Int) := by
                  rw [← h] at htb
                  exact htb
                have h6 : (liveCount tiles0 i : Int) = ((tiles i).toNat : Int) := by
                  rw [← h5]
                  exact htilesi
                have : liveCount tiles0 i = (tiles i).toNat := by omega
                exact h2 this
              refine ⟨by omega, by simpa using hi_lt, ?_⟩
              rw [Int.toNat_natCast, defrag_upd_ne _ _ _ _ hIT1, defrag_upd_self]
            · rw [defrag_upd_ne _ _ _ _ h3] at hbl ⊢
              obtain ⟨ha, hbb, hcc⟩ := inv3 b hb hbl
              refine ⟨ha, hbb, ?_⟩
              have hne_t1 : (b2t b).toNat ≠ (b2t (liveCount tiles0 i)).toNat := by
                intro h
                rw [h, htb] at hcc
                have : b = liveCount tiles0 i := by omega
                exact h3 this
              have hne_i : (b2t b).toNat ≠ i := by
                intro h
                rw [h] at hcc
                have hbe : (b : Int) = ((tiles i).toNat : Int) := by
                  rw [← hcc]
                  exact htilesi
                have : b = (tiles i).toNat := by omega
                exact h2 this
              rw [defrag_upd_ne _ _ _ _ hne_t1, defrag_upd_ne _ _ _ _ hne_i]
              exact hcc
        · -- processed prefix holds final ranks
          intro t ht hlv
          rcases Nat.lt_or_ge t i with hti | hti
          · rw [defrag_upd_ne _ _ _ _
                (fun (h : t = (b2t (liveCount tiles0 i)).toNat) => ht1_ge (h ▸ hti)),
              defrag_upd_ne _ _ _ _ (by omega : t ≠ i)]
            exact inv4 t hti hlv
          · have hti2 : t = i := by omega
            rw [hti2]
            by_cases h1 : i = (b2t (liveCount tiles0 i)).toNat
            · have hqq : defrag_upd
                    (defrag_upd tiles i ((liveCount tiles0 i : Nat) : Int))
                    ((b2t (liveCount tiles0 i)).toNat) (((tiles i).toNat : Nat) : Int) i
                  = (((tiles i).toNat : Nat) : Int) := by
                rw [← h1, defrag_upd_self]
              rw [hqq]
              have h5 : tiles i = ((liveCount tiles0 i : Nat) : Int) := by
                rw [← h1] at htb
                exact htb
              rw [htilesi] at h5
              omega
            · rw [defrag_upd_ne _ _ _ _ h1, defrag_upd_self]

theorem liveList_succ (t0 : Nat → Int) (m : Nat) :
    liveList t0 (m + 1) = liveList t0 m ++ (if t0 m = -1 then [] else [m]) := by
  unfold liveList
  rw [List.range_succ, List.filter_append]
  by_cases h : t0 m = -1
  · simp [h]
  · simp [h]

theorem liveList_elem (t0 : Nat → Int) :
    ∀ (n j : Nat), j < (liveList t0 n).length →
      (liveList t0 n).getD j 0 < n ∧
      t0 ((liveList t0 n).getD j 0) ≠ -1 ∧
      liveCount t0 ((liveList t0 n).getD j 0) = j := by
  intro n
  induction n with
  | zero =>
    intro j hj
    simp [liveList] at hj
  | succ m ih =>
    intro j hj
    rcases Nat.lt_or_ge j (liveList t0 m).length with h | h
    · obtain ⟨a, b, c⟩ := ih j h
      rw [liveList_succ, List.getD_append _ _ _ _ h]
      exact ⟨by omega, b, c⟩
    · rw [liveList_succ, List.length_append] at hj
      by_cases hm : t0 m = -1
      · rw [if_pos hm] at hj
        simp at hj
        omega
      · rw [if_neg hm] at hj
        simp at hj
        have hj2 : j = (liveList t0 m).length := by omega
        subst hj2
        rw [liveList_succ, List.getD_append_right _ _ _ _ (Nat.le_refl _), Nat.sub_self,
          if_neg hm]
        refine ⟨by simp, ?_, ?_⟩
        · simpa using hm
        · simpa using (liveList_length t0 m).symm

/-- Claim C4: after `sif_defragment` runs on a writable handle with the
defragment flag set, starting from well-formed inverse block maps, there
is a `k` equal to the number of live tiles such that
`blocks_to_tiles[0..k)` lists exactly the live tiles in strictly
increasing tile-index order, `blocks_to_tiles[k..n_tiles)` is all -1, and
each listed tile's `block_num` equals its position in the prefix
(liveness of every tile is preserved). -/
theorem sif_defragment_dense_prefix
    (n : Nat) (tiles b2t : Nat → Int) (defragment_flag : Int)
    (hdf : defragment_flag ≠ 0)
    (hwf : DefragWF n tiles b2t) :
    ∃ k,
      k = (liveList tiles n).length ∧
      (∀ t, t < n →
        ((sif_defragment_maps false defragment_flag n tiles b2t).1 t = -1 ↔ tiles t = -1)) ∧
      (∀ j, j < k →
        (sif_defragment_maps false defragment_flag n tiles b2t).2 j
            = ((liveList tiles n).getD j 0 : Int) ∧
          (sif_defragment_maps false defragment_flag n tiles b2t).1
              ((liveList tiles n).getD j 0) = (j : Int)) ∧
      (∀ b, k ≤ b → b < n →
        (sif_defragment_maps false defragment_flag n tiles b2t).2 b = -1) := by
  obtain ⟨wf1, wf2⟩ := hwf
  have hmaps : sif_defragment_maps false defragment_flag n tiles b2t
      = sif_defragment_go (List.range' 0 n) 0 tiles b2t := by
    unfold sif_defragment_maps
    rw [if_neg (by simp [hdf]), List.range_eq_range']
  have hinv0 : DefragInv tiles n 0 tiles b2t :=
    ⟨fun t _ => Iff.rfl, wf1, wf2, fun t ht => absurd ht (Nat.not_lt_zero t)⟩
  have hfin := defrag_go_inv tiles n n 0 tiles b2t (by omega) hinv0
  have hzero : liveCount tiles 0 = 0 := rfl
  rw [hzero] at hfin
  obtain ⟨f1, f2, f3, f4⟩ := hfin
  refine ⟨(liveList tiles n).length, rfl, ?_, ?_, ?_⟩
  · intro t ht
    rw [hmaps]
    exact f1 t ht
  · intro j hj
    obtain ⟨helt, hlive, hrank⟩ := liveList_elem tiles n j hj
    have h4 := f4 ((liveList tiles n).getD j 0) helt hlive
    rw [hrank] at h4
    have hne : (sif_defragment_go (List.range' 0 n) 0 tiles b2t).1
        ((liveList tiles n).getD j 0) ≠ -1 := by
      rw [h4]
      omega
    obtain ⟨_, _, hcc⟩ := f2 ((liveList tiles n).getD j 0) helt hne
    rw [h4, Int.toNat_natCast] at hcc
    rw [hmaps]
    exact ⟨hcc, h4⟩
  · intro b hkb hb
    rw [hmaps]
    by_contra hbl
    obtain ⟨hpos2, hlt2, hcc2⟩ := f3 b hb hbl
    have hlv : tiles ((sif_defragment_go (List.range' 0 n) 0 tiles b2t).2 b).toNat ≠ -1 := by
      intro h
      have := (f1 _ hlt2).mpr h
      rw [hcc2] at this
      omega
    have h4 := f4 _ hlt2 hlv
    rw [hcc2] at h4
    have hbe : b = liveCount tiles
        ((sif_defragment_go (List.range' 0 n) 0 tiles b2t).2 b).toNat := by omega
    have hlt3 : liveCount tiles
        ((sif_defragment_go (List.range' 0 n) 0 tiles b2t).2 b).toNat
        < liveCount tiles n := liveCount_lt_of_live tiles hlt2 hlv
    rw [liveList_length] at hkb
    omega

/-- Witness for C4 on concrete maps with three tiles (tile 0 uniform,
tile 1 in block 2, tile 2 in block 0) and the defragment flag 1. -/
theorem sif_defragment_dense_prefix_witness :
    (1 : Int) ≠ 0 ∧ DefragWF 3 exC4_tiles exC4_b2t ∧
    (∃ k,
      k = (liveList exC4_tiles 3).length ∧
      (∀ t, t < 3 →
        ((sif_defragment_maps false 1 3 exC4_tiles exC4_b2t).1 t = -1 ↔
          exC4_tiles t = -1)) ∧
      (∀ j, j < k →
        (sif_defragment_maps false 1 3 exC4_tiles exC4_b2t).2 j
            = ((liveList exC4_tiles 3).getD j 0 : Int) ∧
          (sif_defragment_maps false 1 3 exC4_tiles exC4_b2t).1
              ((liveList exC4_tiles 3).getD j 0) = (j : Int)) ∧
      (∀ b, k ≤ b → b < 3 →
        (sif_defragment_maps false 1 3 exC4_tiles exC4_b2t).2 b = -1)) :=
  ⟨by decide, by unfold DefragWF exC4_tiles exC4_b2t; decide,
    sif_defragment_dense_prefix 3 exC4_tiles exC4_b2t 1 (by decide)
      (by unfold DefragWF exC4_tiles exC4_b2t; decide)⟩
